import Mathlib

/-!
Verification of the Adafruit Blinka PyPortal pipeline (`adafruit_pyportal.py`).

Strings are embedded as `List Char`; Python machine behaviour (exceptions,
truthiness, `int()` conversion, thousands grouping) is embedded explicitly.
Each definition is a direct translation of the corresponding Python function;
external collaborators (network, file download, PIL resize, display) are
modelled as outcome oracles supplied in an environment record.
-/

set_option maxHeartbeats 1000000

namespace PyPortal

/-! ### Word wrap (`PyPortal.wrap_nicely`) -/

/-- Embedding of `string.replace("\n", "").replace("\r", "")`: every newline
is removed, then every carriage return. -/
def cleanNewlines (s : List Char) : List Char :=
  (s.filter (fun c => !(c == '\n'))).filter (fun c => !(c == '\r'))

/-- Embedding of Python `string.split(" ")`: split on every single space;
consecutive separators produce empty words, and the empty string yields
`[""]`. -/
def splitOnSpace : List Char → List (List Char)
  | [] => [[]]
  | c :: cs =>
    if c = ' ' then [] :: splitOnSpace cs
    else
      match splitOnSpace cs with
      | [] => [[c]]
      | w :: ws => (c :: w) :: ws

/-- Embedding of the `for w in words` loop of `wrap_nicely` together with the
trailing `if the_line: the_lines.append(the_line)`.  `the_line + " " + w` has
length `theLine.length + 1 + w.length`. -/
def wrapLoop (n : Nat) : List (List Char) → List Char → List (List Char) → List (List Char)
  | [], theLine, theLines =>
    if theLine.isEmpty then theLines else theLines ++ [theLine]
  | w :: ws, theLine, theLines =>
    if theLine.length + 1 + w.length ≤ n then
      wrapLoop n ws (theLine ++ ' ' :: w) theLines
    else
      wrapLoop n ws w (theLines ++ [theLine])

/-- Embedding of `PyPortal.wrap_nicely(string, max_chars)`.  The final
statement `the_lines[0] = the_lines[0][1:]` strips the leading separator
artifact from the first line; the loop always produces at least one line
(the source would raise `IndexError` otherwise, which is unreachable), so the
`[]` branch of the match is dead code. -/
def wrap_nicely (s : List Char) (n : Nat) : List (List Char) :=
  match wrapLoop n (splitOnSpace (cleanNewlines s)) [] [] with
  | [] => []
  | l0 :: rest => l0.drop 1 :: rest

/-- Join lines with single spaces (used to state the round-trip property of
the word wrap). -/
def joinSpaces : List (List Char) → List Char
  | [] => []
  | [l] => l
  | l :: ls => l ++ ' ' :: joinSpaces ls

/-! ### JSON data model and `PyPortal._json_traverse` -/

/-- Python exception classes observed by the pipeline's handlers. -/
inductive PyErr where
  | valueError
  | keyError
  | indexError
  | typeError
  | attributeError
  | otherError
  deriving DecidableEq

/-- Parsed JSON values (the result of `r.json()`); Python `None` is `null`. -/
inductive JSONValue where
  | null
  | bool (b : Bool)
  | num (n : Int)
  | str (s : List Char)
  | arr (xs : List JSONValue)
  | obj (fields : List (List Char × JSONValue))

mutual

/-- Boolean equality on JSON values (used for the decidable equality
instance). -/
def jvBeq : JSONValue → JSONValue → Bool
  | .null, .null => true
  | .bool a, .bool b => a == b
  | .num a, .num b => a == b
  | .str a, .str b => a == b
  | .arr a, .arr b => jvBeqList a b
  | .obj a, .obj b => jvBeqFields a b
  | _, _ => false

def jvBeqList : List JSONValue → List JSONValue → Bool
  | [], [] => true
  | x :: xs, y :: ys => jvBeq x y && jvBeqList xs ys
  | _, _ => false

def jvBeqFields : List (List Char × JSONValue) →
    List (List Char × JSONValue) → Bool
  | [], [] => true
  | (k, v) :: xs, (k', v') :: ys => k == k' && jvBeq v v' && jvBeqFields xs ys
  | _, _ => false

end

mutual

def jvBeq_refl : ∀ v : JSONValue, jvBeq v v = true
  | .null => rfl
  | .bool a => by simp [jvBeq]
  | .num a => by simp [jvBeq]
  | .str a => by simp [jvBeq]
  | .arr xs => by simp [jvBeq, jvBeqList_refl xs]
  | .obj fs => by simp [jvBeq, jvBeqFields_refl fs]

def jvBeqList_refl : ∀ xs : List JSONValue, jvBeqList xs xs = true
  | [] => rfl
  | x :: xs => by simp [jvBeqList, jvBeq_refl x, jvBeqList_refl xs]

def jvBeqFields_refl : ∀ fs : List (List Char × JSONValue),
    jvBeqFields fs fs = true
  | [] => rfl
  | (k, v) :: fs => by simp [jvBeqFields, jvBeq_refl v, jvBeqFields_refl fs]

end

mutual

def jvBeq_eq : ∀ a b : JSONValue, jvBeq a b = true → a = b
  | .null, .null, _ => rfl
  | .bool a, .bool b, h => by simp [jvBeq] at h; rw [h]
  | .num a, .num b, h => by simp [jvBeq] at h; rw [h]
  | .str a, .str b, h => by simp [jvBeq] at h; rw [h]
  | .arr xs, .arr ys, h => by rw [jvBeqList_eq xs ys (by simpa [jvBeq] using h)]
  | .obj xs, .obj ys, h => by rw [jvBeqFields_eq xs ys (by simpa [jvBeq] using h)]
  | .null, .bool _, h => by simp [jvBeq] at h
  | .null, .num _, h => by simp [jvBeq] at h
  | .null, .str _, h => by simp [jvBeq] at h
  | .null, .arr _, h => by simp [jvBeq] at h
  | .null, .obj _, h => by simp [jvBeq] at h
  | .bool _, .null, h => by simp [jvBeq] at h
  | .bool _, .num _, h => by simp [jvBeq] at h
  | .bool _, .str _, h => by simp [jvBeq] at h
  | .bool _, .arr _, h => by simp [jvBeq] at h
  | .bool _, .obj _, h => by simp [jvBeq] at h
  | .num _, .null, h => by simp [jvBeq] at h
  | .num _, .bool _, h => by simp [jvBeq] at h
  | .num _, .str _, h => by simp [jvBeq] at h
  | .num _, .arr _, h => by simp [jvBeq] at h
  | .num _, .obj _, h => by simp [jvBeq] at h
  | .str _, .null, h => by simp [jvBeq] at h
  | .str _, .bool _, h => by simp [jvBeq] at h
  | .str _, .num _, h => by simp [jvBeq] at h
  | .str _, .arr _, h => by simp [jvBeq] at h
  | .str _, .obj _, h => by simp [jvBeq] at h
  | .arr _, .null, h => by simp [jvBeq] at h
  | .arr _, .bool _, h => by simp [jvBeq] at h
  | .arr _, .num _, h => by simp [jvBeq] at h
  | .arr _, .str _, h => by simp [jvBeq] at h
  | .arr _, .obj _, h => by simp [jvBeq] at h
  | .obj _, .null, h => by simp [jvBeq] at h
  | .obj _, .bool _, h => by simp [jvBeq] at h
  | .obj _, .num _, h => by simp [jvBeq] at h
  | .obj _, .str _, h => by simp [jvBeq] at h
  | .obj _, .arr _, h => by simp [jvBeq] at h

def jvBeqList_eq : ∀ xs ys : List JSONValue, jvBeqList xs ys = true → xs = ys
  | [], [], _ => rfl
  | [], _ :: _, h => by simp [jvBeqList] at h
  | _ :: _, [], h => by simp [jvBeqList] at h
  | x :: xs, y :: ys, h => by
    simp only [jvBeqList, Bool.and_eq_true] at h
    rw [jvBeq_eq x y h.1, jvBeqList_eq xs ys h.2]

def jvBeqFields_eq : ∀ xs ys : List (List Char × JSONValue),
    jvBeqFields xs ys = true → xs = ys
  | [], [], _ => rfl
  | [], _ :: _, h => by simp [jvBeqFields] at h
  | _ :: _, [], h => by simp [jvBeqFields] at h
  | (k, v) :: xs, (k', v') :: ys, h => by
    simp only [jvBeqFields, Bool.and_eq_true] at h
    obtain ⟨⟨hk, hv⟩, hrest⟩ := h
    rw [jvBeq_eq v v' hv, jvBeqFields_eq xs ys hrest, eq_of_beq hk]

end

instance : DecidableEq JSONValue := fun a b =>
  if h : jvBeq a b = true then isTrue (jvBeq_eq a b h)
  else isFalse (fun he => h (he ▸ jvBeq_refl a))

instance {ε α : Type} [DecidableEq ε] [DecidableEq α] : DecidableEq (Except ε α) :=
  fun a b =>
  match a, b with
  | .ok x, .ok y =>
    if h : x = y then .isTrue (by rw [h])
    else .isFalse (fun he => h (Except.ok.inj he))
  | .error x, .error y =>
    if h : x = y then .isTrue (by rw [h])
    else .isFalse (fun he => h (Except.error.inj he))
  | .ok _, .error _ => .isFalse (fun he => Except.noConfusion he)
  | .error _, .ok _ => .isFalse (fun he => Except.noConfusion he)

/-- One element of a JSON traversal path: a dict key or a list index. -/
inductive PathElem where
  | key (k : List Char)
  | idx (i : Int)
  deriving DecidableEq

/-- First-match association lookup, as Python dict subscripting on the
string-keyed objects produced by `json.loads`. -/
def lookupField (fields : List (List Char × JSONValue)) (k : List Char) :
    Option JSONValue :=
  match fields with
  | [] => none
  | (k', v) :: rest => if k' = k then some v else lookupField rest k

/-- Python sequence indexing with negative-index wrap-around:
`xs[i]` with `-len ≤ i < len`. -/
def pyIndex {α : Type} (xs : List α) (i : Int) : Option α :=
  let j := if i < 0 then (xs.length : Int) + i else i
  if 0 ≤ j then xs.get? j.toNat else none

/-- One subscripting step `value[x]` of `_json_traverse`, with the exception
class Python raises on failure: a missing dict key (or an `int` subscript on a
dict) raises `KeyError`; an out-of-range sequence index raises `IndexError`;
subscripting a scalar, or a string subscript on a sequence, raises
`TypeError`.  Indexing a JSON string yields a one-character string, as in
Python. -/
def getElem : JSONValue → PathElem → Except PyErr JSONValue
  | .obj fields, .key k =>
    match lookupField fields k with
    | some v => .ok v
    | none => .error .keyError
  | .obj _, .idx _ => .error .keyError
  | .arr xs, .idx i =>
    match pyIndex xs i with
    | some v => .ok v
    | none => .error .indexError
  | .arr _, .key _ => .error .typeError
  | .str s, .idx i =>
    match pyIndex s i with
    | some c => .ok (.str [c])
    | none => .error .indexError
  | .str _, .key _ => .error .typeError
  | _, _ => .error .typeError

/-- The state carried by the exception that aborts `_json_traverse`: the path
elements already consumed, the structure reached at the point of failure, the
failing path element (the `KeyError` payload), and the exception class. -/
structure NotFound where
  consumed : List PathElem
  state : JSONValue
  failed : PathElem
  kind : PyErr
  deriving DecidableEq

/-- The `for x in path: value = value[x]` loop of `_json_traverse`, with an
accumulator recording the path elements already consumed. -/
def jsonTraverseFrom (c : List PathElem) : JSONValue → List PathElem →
    Except NotFound JSONValue
  | v, [] => .ok v
  | v, x :: xs =>
    match getElem v x with
    | .ok v' => jsonTraverseFrom (c ++ [x]) v' xs
    | .error e => .error ⟨c, v, x, e⟩

/-- Embedding of `PyPortal._json_traverse(json, path)`. -/
def jsonTraverse (v : JSONValue) (path : List PathElem) : Except NotFound JSONValue :=
  jsonTraverseFrom [] v path

/-! ### Image resize (`PyPortal.resize_image`) -/

/-- Scaled dimensions computed by `resize_image` on an `iw x ih` source for a
`w x h` target.  The float comparison `width / height < image.width /
image.height` is the exact rational comparison `w * ih < iw * h` (heights
positive), and `//` is integer floor division. -/
def resize_dims (iw ih w h : Nat) : Nat × Nat :=
  if w * ih < iw * h then (iw * h / ih, h)
  else (w, ih * w / iw)

/-! ### Portrait recentering in `PyPortal.fetch` (image positioning branch) -/

/-- Python `int(x / 2)` on an integer `x`: float halving truncated toward
zero. -/
def truncDiv2 (a : Int) : Int :=
  if 0 ≤ a then ((a.toNat / 2 : Nat) : Int) else -(((-a).toNat / 2 : Nat) : Int)

/-- `pwidth = int(image_resize[1] * image_resize[1] / image_resize[0])`:
the cropped width for a portrait source, `target_height^2 / target_width`
truncated to an integer (`image_resize = (width, height)`). -/
def pwidthOf (rsz : Nat × Nat) : Nat := rsz.2 * rsz.2 / rsz.1

/-- The x-shift `int((image_resize[0] - pwidth) / 2)` applied in the portrait
branch. -/
def portraitShift (rsz : Nat × Nat) : Int :=
  truncDiv2 ((rsz.1 : Int) - (pwidthOf rsz : Int))

/-- The background position used by the portrait branch of `fetch`:
`(image_position[0] + int((image_resize[0] - pwidth) / 2), image_position[1])`. -/
def portraitPos (rsz : Nat × Nat) (pos : Int × Int) : Int × Int :=
  (pos.1 + portraitShift rsz, pos.2)

/-! ### QR bitmap (`PyPortal.show_QR`) -/

/-- The boolean symbol matrix produced by `adafruit_miniqr` (an external
black-box capability): dimensions plus a cell predicate. -/
structure QRMatrix where
  width : Nat
  height : Nat
  get : Nat → Nat → Bool

/-- A displayio bitmap cell update `b[cx, cy] = v`. -/
def setCell (b : Nat → Nat → Nat) (cx cy v : Nat) : Nat → Nat → Nat :=
  fun x y => if x = cx ∧ y = cy then v else b x y

/-- The inner loop `for yy in range(matrix.height): qr_bitmap[xx+1, yy+1] = 1
if matrix[xx, yy] else 0`, folded over an explicit list of row indices. -/
def transcribeRow (m : QRMatrix) (xx : Nat) (ys : List Nat)
    (b : Nat → Nat → Nat) : Nat → Nat → Nat :=
  ys.foldl (fun b yy => setCell b (xx + 1) (yy + 1) (if m.get xx yy then 1 else 0)) b

/-- The outer loop `for xx in range(matrix.width): ...`. -/
def transcribe (m : QRMatrix) (xs : List Nat) (b : Nat → Nat → Nat) :
    Nat → Nat → Nat :=
  xs.foldl (fun b xx => transcribeRow m xx (List.range m.height) b) b

/-- Width of the bitmap allocated by `show_QR`:
`qrcode.matrix.width + 2`. -/
def qrBitmapWidth (m : QRMatrix) : Nat := m.width + 2

/-- Height of the bitmap allocated by `show_QR`:
`qrcode.matrix.height + 2`. -/
def qrBitmapHeight (m : QRMatrix) : Nat := m.height + 2

/-- The bitmap built by `show_QR`: every cell initialized to 0 by the
`for i in range(width * height): qr_bitmap[i] = 0` loop, then the matrix
transcribed into the interior with a one-cell border left untouched. -/
def qrBitmap (m : QRMatrix) : Nat → Nat → Nat :=
  transcribe m (List.range m.width) (fun _ _ => 0)

/-! ### Python-level helpers used by `fetch` -/

/-- Python truthiness of a parsed JSON value (`if image_url:` etc.). -/
def pyTruthy : JSONValue → Bool
  | .null => false
  | .bool b => b
  | .num n => n != 0
  | .str s => !s.isEmpty
  | .arr xs => !xs.isEmpty
  | .obj fs => !fs.isEmpty

/-- Digits of a nonempty all-digit string, as Python `int` parsing does. -/
def digitsToNat (ds : List Char) : Option Nat :=
  if ds ≠ [] ∧ ds.all (·.isDigit) then
    some (ds.foldl (fun acc c => acc * 10 + (c.toNat - 48)) 0)
  else none

/-- Python `int(s)` on a string: strip surrounding spaces, optional sign,
then a nonempty digit run; anything else raises `ValueError`. -/
def pyParseInt (s : List Char) : Option Int :=
  match ((s.dropWhile (· = ' ')).reverse.dropWhile (· = ' ')).reverse with
  | '-' :: ds => (digitsToNat ds).map (fun k => -(k : Int))
  | '+' :: ds => (digitsToNat ds).map (fun k => (k : Int))
  | ds => (digitsToNat ds).map (fun k => (k : Int))

/-- Python `int(v)` on a parsed JSON value: numbers pass through, booleans
are 0/1, parseable strings convert (`ValueError` otherwise), and any other
object raises `TypeError`. -/
def pyInt : JSONValue → Except PyErr Int
  | .num n => .ok n
  | .bool b => .ok (if b then 1 else 0)
  | .str s =>
    match pyParseInt s with
    | some k => .ok k
    | none => .error .valueError
  | _ => .error .typeError

/-- Insert a comma after every three digits of a least-significant-first
digit list. -/
def group3 : List Char → List Char
  | d1 :: d2 :: d3 :: d4 :: rest => d1 :: d2 :: d3 :: ',' :: group3 (d4 :: rest)
  | ds => ds

/-- Python `"{:,d}".format(n)`: decimal digits grouped by thousands with
commas, with a leading minus sign for negatives. -/
def commaGroup (n : Int) : List Char :=
  let grouped := (group3 (Nat.toDigits 10 n.natAbs).reverse).reverse
  if n < 0 then '-' :: grouped else grouped

/-- Decimal representation of an integer (Python `str` on an int). -/
def intRepr (n : Int) : List Char :=
  if n < 0 then '-' :: Nat.toDigits 10 n.natAbs else Nat.toDigits 10 n.natAbs

mutual

/-- Python `str(v)` on a parsed JSON value, used by `set_text`.  Scalars
follow Python exactly; the bracketed composite forms are a best-effort
rendering (no claim exercises them). -/
def pyStr : JSONValue → List Char
  | .null => "None".toList
  | .bool true => "True".toList
  | .bool false => "False".toList
  | .num n => intRepr n
  | .str s => s
  | .arr xs => '[' :: (pyStrList xs ++ [']'])
  | .obj fs => '\x7b' :: (pyStrFields fs ++ ['\x7d'])

def pyStrList : List JSONValue → List Char
  | [] => []
  | [x] => pyStr x
  | x :: xs => pyStr x ++ ',' :: ' ' :: pyStrList xs

def pyStrFields : List (List Char × JSONValue) → List Char
  | [] => []
  | [(k, v)] => '\x27' :: k ++ '\x27' :: ':' :: ' ' :: pyStr v
  | (k, v) :: fs => ('\x27' :: k ++ '\x27' :: ':' :: ' ' :: pyStr v) ++ ',' :: ' ' :: pyStrFields fs

end

/-- Join wrapped lines with `"\n"` (`string = "\n".join(lines)`). -/
def joinNewlines : List (List Char) → List Char
  | [] => []
  | [l] => l
  | l :: ls => l ++ '\n' :: joinNewlines ls

/-! ### The pipeline configuration and environment -/

/-- A background argument to `set_background`: a hex color or a filename. -/
inductive BgSpec where
  | color (c : Nat)
  | file (name : List Char)
  deriving DecidableEq

/-- A recorded invocation of `set_background(file_or_color, position)`;
`none` is the omitted/None position argument. -/
abbrev BgCall := BgSpec × Option (Int × Int)

/-- Per-slot text configuration from `__init__` (`text_transform`,
`text_wrap`, `text_maxlen`); the user transform is an opaque function that
may raise. -/
structure TextSlot where
  transform : Option (JSONValue → Except PyErr (List Char))
  wrap : Nat
  maxlen : Nat

/-- The response object (`requests.get` result or `Fake_Requests`): its
`.text` and the outcome of `.json()` (a `ValueError` on a malformed body). -/
structure NetResp where
  text : List Char
  json : Except PyErr JSONValue

/-- Outcomes of the external collaborators consumed by one `fetch` cycle:
the local fallback file, the network GET, `wget` download, PIL resize, and
the `OnDiskBitmap` display of the cached image. -/
structure Env where
  localText : List Char
  localJson : Except PyErr JSONValue
  netResult : Except PyErr NetResp
  wgetResult : Except PyErr Unit
  resizeResult : Except PyErr Unit
  showImageResult : Except PyErr Unit

/-- The instance state set up by `__init__` that `fetch` consumes.
`json_path` is already normalized to a list of paths (see `initJsonPath`);
`uselocal` records whether `local.txt` was present at construction. -/
structure Config where
  url : Option (List Char)
  uselocal : Bool
  json_path : Option (List (List PathElem))
  regexp_path : Option (List (List Char → Option (List Char)))
  json_transform : List (JSONValue → Except PyErr JSONValue)
  image_json_path : Option (List PathElem)
  image_url_path : Option (List Char)
  image_dim_json_path : Option (List PathElem × List PathElem)
  image_resize : Option (Nat × Nat)
  image_position : Option (Int × Int)
  default_bg : BgSpec
  success_callback : Bool
  text_slots : List TextSlot

/-- The `__init__` argument for `json_path`: either a single path (a list of
keys/indices) or a list of paths (first element a list/tuple). -/
inductive JsonPathArg where
  | single (p : List PathElem)
  | multi (ps : List (List PathElem))

/-- The `json_path` normalization of `__init__` (lines 205-211): falsy
(`None` or empty) becomes `None`; a single path is wrapped in a one-element
tuple; a list of paths is stored as-is. -/
def initJsonPath : Option JsonPathArg → Option (List (List PathElem))
  | none => none
  | some (.single []) => none
  | some (.single (x :: xs)) => some [x :: xs]
  | some (.multi []) => none
  | some (.multi (p :: ps)) => some (p :: ps)

/-- The extraction-mode handling of `__init__`: `json_path` is normalized
and `regexp_path` is stored unchanged (`self._regexp_path = regexp_path`);
no exclusivity check of any kind is performed and no error can be raised. -/
def initExtraction (jp : Option JsonPathArg)
    (rp : Option (List (List Char → Option (List Char)))) :
    Option (List (List PathElem)) × Option (List (List Char → Option (List Char))) :=
  (initJsonPath jp, rp)

/-! ### The `fetch` cycle, stage by stage -/

/-- The extracted values: a list of JSON values (JSON or regex mode) or the
raw response text when no extraction is configured (`values = r.text`). -/
inductive Extracted where
  | vals (vs : List JSONValue)
  | raw (t : List Char)
  deriving DecidableEq

/-- The value returned by `fetch`: `values[0]` when `len(values) == 1`
(which for the raw-text case is a single character), else `values`. -/
inductive FetchReturn where
  | one (v : JSONValue)
  | many (vs : List JSONValue)
  | oneChar (c : Char)
  | rawText (t : List Char)
  deriving DecidableEq

/-- Observable outcome of a successful `fetch` cycle: the returned value,
the `set_background` invocations in order, the strings handed to
`set_text`, whether the success callback was invoked, and whether the data
body was acquired over the network (`requests.get`) rather than from the
local fallback file.  Note: this flag covers only the body acquisition; the
image block's `wget` download is a separate network access, which occurs
exactly when `wgetAttempted` holds regardless of local-override mode. -/
structure FetchOut where
  ret : FetchReturn
  bgCalls : List BgCall
  texts : List (List Char)
  callbackInvoked : Bool
  bodyFromNetwork : Bool
  deriving DecidableEq

/-- Acquisition: local-override mode reads the fallback file, otherwise one
network GET. -/
def acquire (cfg : Config) (env : Env) : Except PyErr NetResp :=
  if cfg.uselocal then .ok ⟨env.localText, env.localJson⟩ else env.netResult

/-- `if self._image_json_path or self._json_path:` — Python truthiness of
the two optional lists. -/
def needsJson (cfg : Config) : Bool :=
  (match cfg.image_json_path with | some (_ :: _) => true | _ => false) ||
  (match cfg.json_path with | some (_ :: _) => true | _ => false)

/-- Parse the body as JSON when some JSON path is configured; a parse
failure (`ValueError`) is re-raised.  `json_out` starts as Python `None`
(JSON `null`). -/
def parseStage (cfg : Config) (r : NetResp) : Except PyErr JSONValue :=
  if needsJson cfg then r.json else .ok .null

/-- Apply the registered `json_transform` functions in order; the first
failure aborts. -/
def transformStage : List (JSONValue → Except PyErr JSONValue) → JSONValue →
    Except PyErr JSONValue
  | [], j => .ok j
  | f :: fs, j =>
    match f j with
    | .ok j' => transformStage fs j'
    | .error e => .error e

/-- Traverse every configured JSON path in order; a traversal failure is
printed and re-raised (aborting extraction). -/
def traverseAll (j : JSONValue) : List (List PathElem) →
    Except PyErr (List JSONValue)
  | [] => .ok []
  | p :: ps =>
    match jsonTraverse j p with
    | .ok v =>
      match traverseAll j ps with
      | .ok vs => .ok (v :: vs)
      | .error e => .error e
    | .error e => .error e.kind

/-- Run every configured regex (modelled as its `re.search(...).group(1)`
oracle) against the response text; `re.search` returning `None` makes
`.group(1)` raise `AttributeError`. -/
def searchAll (t : List Char) : List (List Char → Option (List Char)) →
    Except PyErr (List JSONValue)
  | [] => .ok []
  | rx :: rest =>
    match rx t with
    | some cap =>
      match searchAll t rest with
      | .ok vs => .ok (.str cap :: vs)
      | .error e => .error e
    | none => .error .attributeError

/-- Extraction: `if self._json_path: ... elif self._regexp_path: ... else:
values = r.text` — JSON mode takes precedence, regex mode is consulted only
when no (truthy) JSON path exists. -/
def extractStage (cfg : Config) (r : NetResp) (j : JSONValue) :
    Except PyErr Extracted :=
  match cfg.json_path with
  | some (p :: ps) =>
    match traverseAll j (p :: ps) with
    | .ok vs => .ok (.vals vs)
    | .error e => .error e
  | _ =>
    match cfg.regexp_path with
    | some (rx :: rxs) =>
      match searchAll r.text (rx :: rxs) with
      | .ok vs => .ok (.vals vs)
      | .error e => .error e
    | _ => .ok (.raw r.text)

/-- The static image URL taken from a truthy `image_url_path`. -/
def staticImageUrl (cfg : Config) : Option JSONValue :=
  match cfg.image_url_path with
  | some (c :: cs) => some (.str (c :: cs))
  | _ => none

/-- Resolution of `image_json_path`: on success it overwrites the image
URL; a `KeyError` is caught, the default background is set and the cycle
continues (the previously assigned static URL, if any, is kept); any other
exception propagates. -/
def imageUrlStage (cfg : Config) (j : JSONValue) :
    Except PyErr (Option JSONValue × List BgCall) :=
  match cfg.image_json_path with
  | some (x :: xs) =>
    match jsonTraverse j (x :: xs) with
    | .ok v => .ok (some v, [])
    | .error e =>
      if e.kind = .keyError then .ok (staticImageUrl cfg, [(cfg.default_bg, none)])
      else .error e.kind
  | _ => .ok (staticImageUrl cfg, [])

/-- Resolution of `image_dim_json_path`: both traversals and the `int()`
conversions run uncaught; without the configuration the dimensions stay
`(0, 0)`. -/
def dimStage (cfg : Config) (j : JSONValue) : Except PyErr (Int × Int) :=
  match cfg.image_dim_json_path with
  | none => .ok (0, 0)
  | some (pw, ph) =>
    match jsonTraverse j pw with
    | .error e => .error e.kind
    | .ok vw =>
      match pyInt vw with
      | .error e => .error e
      | .ok iw =>
        match jsonTraverse j ph with
        | .error e => .error e.kind
        | .ok vh =>
          match pyInt vh with
          | .error e => .error e
          | .ok ih => .ok (iw, ih)

/-- The image cache filename. -/
def cacheName : List Char := "cache.bmp".toList

/-- The body of the `try:` block guarding image download/resize/display:
`wget` the URL to the cache file, resize it (subscripting a `None`
`image_resize` raises `TypeError` first), then `set_background` at the
portrait-corrected position when `iwidth < iheight` (a `None`
`image_position` raises `TypeError`; `image_resize[0] == 0` raises
`ZeroDivisionError`), or at the configured position otherwise. -/
def imageTry (cfg : Config) (iw ih : Int) (env : Env) :
    Except PyErr (List BgCall) :=
  match env.wgetResult with
  | .error e => .error e
  | .ok _ =>
    match cfg.image_resize with
    | none => .error .typeError
    | some rsz =>
      match env.resizeResult with
      | .error e => .error e
      | .ok _ =>
        if iw < ih then
          match cfg.image_position with
          | none => .error .typeError
          | some pos =>
            if rsz.1 = 0 then .error .otherError
            else
              match env.showImageResult with
              | .error e => .error e
              | .ok _ => .ok [(.file cacheName, some (portraitPos rsz pos))]
        else
          match env.showImageResult with
          | .error e => .error e
          | .ok _ => .ok [(.file cacheName, cfg.image_position)]

/-- The image block of `fetch`: runs only for a truthy `image_url`;
`except ValueError` substitutes the default background and continues, while
every other exception class propagates and aborts the cycle. -/
def imageStage (cfg : Config) (imageUrl : Option JSONValue) (iw ih : Int)
    (env : Env) : Except PyErr (List BgCall) :=
  match imageUrl with
  | none => .ok []
  | some v =>
    if pyTruthy v then
      match imageTry cfg iw ih env with
      | .ok calls => .ok calls
      | .error .valueError => .ok [(cfg.default_bg, none)]
      | .error e => .error e
    else .ok []

/-- `values[i]`: list indexing in JSON/regex mode (`IndexError` when out of
range), character indexing when `values` is the raw text. -/
def valueAt : Extracted → Nat → Except PyErr JSONValue
  | .vals vs, i =>
    match vs.get? i with
    | some v => .ok v
    | none => .error .indexError
  | .raw t, i =>
    match t.get? i with
    | some c => .ok (.str [c])
    | none => .error .indexError

/-- A slot string prior to `set_text`: an actual string, or the raw value
when the `"{:,d}".format(int(...))` fallback failed. -/
inductive StrOrVal where
  | str (s : List Char)
  | val (v : JSONValue)

/-- Step 1 of a text slot: the custom transform if provided, else integer
grouping with the raw value as fallback on `TypeError`/`ValueError`. -/
def formatSlot (slot : TextSlot) (v : JSONValue) : Except PyErr StrOrVal :=
  match slot.transform with
  | some f =>
    match f v with
    | .ok s => .ok (.str s)
    | .error e => .error e
  | none =>
    match pyInt v with
    | .ok k => .ok (.str (commaGroup k))
    | .error e =>
      if e = .typeError ∨ e = .valueError then .ok (.val v)
      else .error e

/-- Step 2: word-wrap when configured (`wrap_nicely` calls `.replace` on its
argument, so a non-string value raises `AttributeError` here), then
`set_text`'s `str()` conversion and `maxlen` truncation. -/
def renderSlot (slot : TextSlot) (sv : StrOrVal) : Except PyErr (List Char) :=
  match
    (if slot.wrap ≠ 0 then
      match sv with
      | .str s => .ok (joinNewlines (wrap_nicely s slot.wrap))
      | .val (.str s) => .ok (joinNewlines (wrap_nicely s slot.wrap))
      | .val _ => .error .attributeError
    else
      .ok (match sv with | .str s => s | .val v => pyStr v) :
      Except PyErr (List Char))
  with
  | .ok s => .ok (if slot.maxlen ≠ 0 then s.take slot.maxlen else s)
  | .error e => .error e

/-- One text slot end to end. -/
def textSlotRun (slot : TextSlot) (v : JSONValue) : Except PyErr (List Char) :=
  match formatSlot slot v with
  | .error e => .error e
  | .ok sv => renderSlot slot sv

/-- The `for i in range(len(self._text))` loop filling all text slots. -/
def goText : List TextSlot → Nat → Extracted → Except PyErr (List (List Char))
  | [], _, _ => .ok []
  | slot :: rest, i, ex =>
    match valueAt ex i with
    | .error e => .error e
    | .ok v =>
      match textSlotRun slot v with
      | .error e => .error e
      | .ok s =>
        match goText rest (i + 1) ex with
        | .error e => .error e
        | .ok ss => .ok (s :: ss)

/-- The text-fill stage of `fetch`. -/
def textStage (cfg : Config) (ex : Extracted) : Except PyErr (List (List Char)) :=
  goText cfg.text_slots 0 ex

/-- `if len(values) == 1: return values[0]` — the raw-text case unwraps to a
single character. -/
def mkReturn : Extracted → FetchReturn
  | .vals [v] => .one v
  | .vals vs => .many vs
  | .raw [c] => .oneChar c
  | .raw t => .rawText t

/-- Exception propagation: run the continuation on success, re-raise on
failure. -/
def exBind {α β : Type} (x : Except PyErr α) (f : α → Except PyErr β) :
    Except PyErr β :=
  match x with
  | .ok a => f a
  | .error e => .error e

/-- Embedding of one `PyPortal.fetch` cycle: acquire, parse, transform,
extract, resolve the image URL and dimensions, run the guarded image block,
fill the text slots, and return the value(s).  Aborting exceptions surface
as `.error`. -/
def fetch (cfg : Config) (env : Env) : Except PyErr FetchOut :=
  exBind (acquire cfg env) (fun r =>
  exBind (parseStage cfg r) (fun j0 =>
  exBind (transformStage cfg.json_transform j0) (fun j =>
  exBind (extractStage cfg r j) (fun ex =>
  exBind (imageUrlStage cfg j) (fun iu =>
  exBind (dimStage cfg j) (fun dims =>
  exBind (imageStage cfg iu.1 dims.1 dims.2 env) (fun bgs2 =>
  exBind (textStage cfg ex) (fun texts =>
  .ok ⟨mkReturn ex, iu.2 ++ bgs2, texts,
    cfg.success_callback, !cfg.uselocal⟩))))))))

/-- One call of `fetch(refresh_url=...)`: the optional refresh URL mutates
`self._url` before the cycle runs. -/
def fetchCall (cfg : Config) (refresh : Option (List Char)) (env : Env) :
    Config × Except PyErr FetchOut :=
  let cfg' := match refresh with
    | some u => { cfg with url := some u }
    | none => cfg
  (cfg', fetch cfg' env)

/-- A sequence of `fetch` calls against one instance, threading the mutated
state. -/
def runCalls (cfg : Config) : List (Option (List Char) × Env) →
    List (Except PyErr FetchOut)
  | [] => []
  | (ref, env) :: rest =>
    (fetchCall cfg ref env).2 :: runCalls (fetchCall cfg ref env).1 rest

/-- Replace the three image-block outcomes of an environment. -/
def envWith (e : Env) (w r s : Except PyErr Unit) : Env :=
  { e with wgetResult := w, resizeResult := r, showImageResult := s }

/-- Whether the cycle reaches the `self.wget(image_url, filename)` call of
the image block (line 794) — i.e. issues the image-download network request.
This happens exactly when every stage before the image block succeeds and
the resolved image URL is truthy; it does not depend on local-override mode,
which governs only the body acquisition. -/
def wgetAttempted (cfg : Config) (env : Env) : Bool :=
  match acquire cfg env with
  | .error _ => false
  | .ok r =>
    match parseStage cfg r with
    | .error _ => false
    | .ok j0 =>
      match transformStage cfg.json_transform j0 with
      | .error _ => false
      | .ok j =>
        match extractStage cfg r j with
        | .error _ => false
        | .ok _ =>
          match imageUrlStage cfg j with
          | .error _ => false
          | .ok iu =>
            match dimStage cfg j with
            | .error _ => false
            | .ok _ =>
              match iu.1 with
              | none => false
              | some v => pyTruthy v

/-! ### Concrete instances used by counterexamples and witnesses -/

/-- A concrete instance state: local-override mode, one JSON path `["a"]`,
a static image URL, no dimension path, and no text slots. -/
def cfgLocalJson : Config where
  url := none
  uselocal := true
  json_path := some [[.key ['a']]]
  regexp_path := none
  json_transform := []
  image_json_path := none
  image_url_path := some ['u']
  image_dim_json_path := none
  image_resize := some (4, 4)
  image_position := some (0, 0)
  default_bg := .color 7
  success_callback := false
  text_slots := []

/-- A concrete environment: the local file parses to `{"a": 5}` and every
image-related collaborator succeeds. -/
def envLocalJson : Env where
  localText := []
  localJson := .ok (.obj [(['a'], .num 5)])
  netResult := .error .otherError
  wgetResult := .ok ()
  resizeResult := .ok ()
  showImageResult := .ok ()

/-- The instance state with BOTH extraction modes configured: the JSON path
`["a"]` and a regex whose first capture would be `"9"`. -/
def cfgBoth : Config where
  url := none
  uselocal := true
  json_path := some [[.key ['a']]]
  regexp_path := some [fun _ => some ['9']]
  json_transform := []
  image_json_path := none
  image_url_path := none
  image_dim_json_path := none
  image_resize := none
  image_position := none
  default_bg := .color 0
  success_callback := false
  text_slots := []



/-! ### Lemmas about the word wrap -/

theorem splitOnSpace_ne_nil (s : List Char) : splitOnSpace s ≠ [] := by
  induction s with
  | nil => simp [splitOnSpace]
  | cons c cs ih =>
    simp only [splitOnSpace]
    split
    · simp
    · cases h : splitOnSpace cs with
      | nil => exact absurd h ih
      | cons w ws => simp

theorem joinSpaces_cons_ne (x : List Char) (ls : List (List Char)) (h : ls ≠ []) :
    joinSpaces (x :: ls) = x ++ ' ' :: joinSpaces ls := by
  cases ls with
  | nil => exact absurd rfl h
  | cons l ls => rfl

theorem joinSpaces_cons_head (c : Char) (t : List Char) (rest : List (List Char)) :
    joinSpaces ((c :: t) :: rest) = c :: joinSpaces (t :: rest) := by
  cases rest with
  | nil => rfl
  | cons r rs => rfl

theorem joinSpaces_splitOnSpace (s : List Char) : joinSpaces (splitOnSpace s) = s := by
  induction s with
  | nil => rfl
  | cons c cs ih =>
    simp only [splitOnSpace]
    split
    · next hc =>
      rw [joinSpaces_cons_ne _ _ (splitOnSpace_ne_nil cs), ih, hc]
      rfl
    · next hc =>
      cases h : splitOnSpace cs with
      | nil => exact absurd h (splitOnSpace_ne_nil cs)
      | cons w ws =>
        rw [h] at ih
        rw [joinSpaces_cons_head, ih]

theorem wrapLoop_append (n : Nat) (ws : List (List Char)) :
    ∀ line acc, wrapLoop n ws line acc = acc ++ wrapLoop n ws line [] := by
  induction ws with
  | nil =>
    intro line acc
    simp only [wrapLoop]
    split <;> simp
  | cons w ws ih =>
    intro line acc
    simp only [wrapLoop]
    split
    · exact ih _ acc
    · rw [ih w (acc ++ [line]), ih w ([] ++ [line])]
      simp

theorem wrapLoop_mem (n : Nat) (ws : List (List Char)) :
    ∀ line, ∀ l ∈ wrapLoop n ws line [], l.length ≤ n ∨ l ∈ ws ∨ l = line := by
  induction ws with
  | nil =>
    intro line l hl
    simp only [wrapLoop] at hl
    split at hl
    · simp at hl
    · simp at hl
      exact Or.inr (Or.inr hl)
  | cons w ws ih =>
    intro line l hl
    simp only [wrapLoop] at hl
    split at hl
    · next hfit =>
      rcases ih _ l hl with h | h | h
      · exact Or.inl h
      · exact Or.inr (Or.inl (List.mem_cons_of_mem _ h))
      · subst h
        refine Or.inl ?_
        simpa [Nat.add_comm, Nat.add_left_comm, Nat.add_assoc] using hfit
    · rw [wrapLoop_append] at hl
      simp at hl
      rcases hl with h | h
      · exact Or.inr (Or.inr h)
      · rcases ih _ l h with h' | h' | h'
        · exact Or.inl h'
        · exact Or.inr (Or.inl (List.mem_cons_of_mem _ h'))
        · exact Or.inr (Or.inl (h' ▸ List.mem_cons_self _ _))

theorem wrapLoop_head_le (n : Nat) (ws : List (List Char)) :
    ∀ line hd rest, line.length ≤ n → wrapLoop n ws line [] = hd :: rest →
      hd.length ≤ n := by
  induction ws with
  | nil =>
    intro line hd rest hlen h
    simp only [wrapLoop] at h
    split at h
    · exact absurd h (by simp)
    · simp at h
      exact h.1 ▸ hlen
  | cons w ws ih =>
    intro line hd rest hlen h
    simp only [wrapLoop] at h
    split at h
    · next hfit =>
      exact ih _ hd rest (by simpa [Nat.add_comm, Nat.add_left_comm, Nat.add_assoc] using hfit) h
    · rw [wrapLoop_append] at h
      simp at h
      exact h.1 ▸ hlen

theorem wrapLoop_head_cons (n : Nat) (ws : List (List Char)) :
    ∀ c t, ∃ t' rest, wrapLoop n ws (c :: t) [] = (c :: t') :: rest := by
  induction ws with
  | nil =>
    intro c t
    exact ⟨t, [], by simp [wrapLoop]⟩
  | cons w ws ih =>
    intro c t
    simp only [wrapLoop]
    split
    · simpa using ih c (t ++ ' ' :: w)
    · rw [wrapLoop_append]
      exact ⟨t, wrapLoop n ws w [], by simp⟩

theorem wrapLoop_overlong (n : Nat) (ws : List (List Char)) :
    ∀ line, n < line.length → ∃ rest, wrapLoop n ws line [] = line :: rest := by
  induction ws with
  | nil =>
    intro line hlen
    refine ⟨[], ?_⟩
    simp only [wrapLoop]
    rw [if_neg]
    · simp
    · simp only [List.isEmpty_iff]
      intro h
      subst h
      simp at hlen
  | cons w ws ih =>
    intro line hlen
    simp only [wrapLoop]
    rw [if_neg (by omega)]
    rw [wrapLoop_append]
    exact ⟨wrapLoop n ws w [], by simp⟩

theorem joinSpaces_append_concat (acc : List (List Char)) (a b : List Char) :
    joinSpaces (acc ++ [a ++ b]) = joinSpaces (acc ++ [a]) ++ b := by
  induction acc with
  | nil => rfl
  | cons x acc ih =>
    rw [List.cons_append, List.cons_append,
      joinSpaces_cons_ne _ _ (by simp), joinSpaces_cons_ne _ _ (by simp), ih]
    simp

theorem joinSpaces_append_pair (acc : List (List Char)) (a b : List Char) :
    joinSpaces (acc ++ [a, b]) = joinSpaces (acc ++ [a]) ++ ' ' :: b := by
  induction acc with
  | nil => rfl
  | cons x acc ih =>
    rw [List.cons_append, List.cons_append,
      joinSpaces_cons_ne _ _ (by simp), joinSpaces_cons_ne _ _ (by simp), ih]
    simp

theorem wrapLoop_join (n : Nat) (ws : List (List Char)) :
    ∀ line acc, (∀ w ∈ ws, w ≠ []) → line ≠ [] →
      joinSpaces (wrapLoop n ws line acc) =
        joinSpaces (acc ++ [line]) ++ (ws.map (fun w => ' ' :: w)).flatten := by
  induction ws with
  | nil =>
    intro line acc _ hline
    simp only [wrapLoop]
    rw [if_neg (by simpa [List.isEmpty_iff] using hline)]
    simp
  | cons w ws ih =>
    intro line acc hws hline
    have hw : w ≠ [] := hws w (List.mem_cons_self _ _)
    have hws' : ∀ x ∈ ws, x ≠ [] := fun x hx => hws x (List.mem_cons_of_mem _ hx)
    simp only [wrapLoop]
    split
    · rw [ih (line ++ ' ' :: w) acc hws' (by simp)]
      rw [joinSpaces_append_concat acc line (' ' :: w)]
      simp
    · rw [ih w (acc ++ [line]) hws' hw]
      rw [List.append_assoc, List.singleton_append, joinSpaces_append_pair acc line w]
      simp

theorem joinSpaces_eq_join_map (w : List Char) (ws : List (List Char)) :
    joinSpaces (w :: ws) = w ++ (ws.map (fun x => ' ' :: x)).flatten := by
  induction ws generalizing w with
  | nil => simp [joinSpaces]
  | cons w2 ws ih =>
    rw [joinSpaces_cons_ne _ _ (by simp), ih w2]
    simp

theorem splitOnSpace_no_space (w : List Char) (hw : ' ' ∉ w) :
    splitOnSpace w = [w] := by
  induction w with
  | nil => rfl
  | cons c cs ih =>
    have hc : ¬ c = ' ' := fun he => hw (by rw [← he]; exact List.mem_cons_self _ _)
    simp only [splitOnSpace, if_neg hc]
    rw [ih (fun hm => hw (List.mem_cons_of_mem _ hm))]

theorem splitOnSpace_cons_space (cs : List Char) :
    splitOnSpace (' ' :: cs) = [] :: splitOnSpace cs := by
  simp [splitOnSpace]

theorem splitOnSpace_cons_of_ne (c : Char) (cs : List Char) (hc : ¬ c = ' ') :
    splitOnSpace (c :: cs) =
      match splitOnSpace cs with
      | [] => [[c]]
      | w :: ws => (c :: w) :: ws := by
  simp [splitOnSpace, hc]

theorem splitOnSpace_append_space (w : List Char) (hw : ' ' ∉ w) :
    ∀ a : List Char, splitOnSpace (a ++ ' ' :: w) = splitOnSpace a ++ [w] := by
  intro a
  induction a with
  | nil =>
    rw [List.nil_append, splitOnSpace_cons_space, splitOnSpace_no_space w hw]
    rfl
  | cons c cs ih =>
    by_cases hc : c = ' '
    · subst hc
      rw [List.cons_append, splitOnSpace_cons_space, ih, splitOnSpace_cons_space]
      rfl
    · rcases hsp : splitOnSpace cs with _ | ⟨hd, tl⟩
      · exact absurd hsp (splitOnSpace_ne_nil cs)
      · rw [List.cons_append, splitOnSpace_cons_of_ne _ _ hc,
          splitOnSpace_cons_of_ne _ _ hc, ih, hsp]
        rfl

theorem splitOnSpace_mem_no_space (s : List Char) :
    ∀ w ∈ splitOnSpace s, ' ' ∉ w := by
  induction s with
  | nil =>
    intro w hw
    simp only [splitOnSpace, List.mem_singleton] at hw
    subst hw
    simp
  | cons c cs ih =>
    intro w hw
    simp only [splitOnSpace] at hw
    split at hw
    · rcases List.mem_cons.mp hw with h1 | h1
      · subst h1; simp
      · exact ih w h1
    · next hc =>
      rcases hsp : splitOnSpace cs with _ | ⟨hd, tl⟩
      · exact absurd hsp (splitOnSpace_ne_nil cs)
      · rw [hsp] at hw
        rcases List.mem_cons.mp hw with h1 | h1
        · subst h1
          intro hsp2
          rcases List.mem_cons.mp hsp2 with h2 | h2
          · exact hc h2.symm
          · exact ih hd (hsp ▸ List.mem_cons_self _ _) h2
        · exact ih w (hsp ▸ List.mem_cons_of_mem _ h1)

theorem wrapLoop_words (n : Nat) (ws : List (List Char)) :
    ∀ line acc, (∀ w ∈ ws, ' ' ∉ w) →
      ((wrapLoop n ws line acc).map splitOnSpace).flatten.filter
          (fun w => !w.isEmpty) =
        (((acc ++ [line]).map splitOnSpace).flatten.filter
          (fun w => !w.isEmpty)) ++ ws.filter (fun w => !w.isEmpty) := by
  induction ws with
  | nil =>
    intro line acc _
    simp only [wrapLoop]
    split
    · next hemp =>
      have hl : line = [] := by simpa [List.isEmpty_iff] using hemp
      subst hl
      simp [splitOnSpace, List.filter_append]
    · simp
  | cons w ws ih =>
    intro line acc hws
    have hw : ' ' ∉ w := hws w (List.mem_cons_self _ _)
    have hws' : ∀ x ∈ ws, ' ' ∉ x := fun x hx => hws x (List.mem_cons_of_mem _ hx)
    simp only [wrapLoop]
    split
    · rw [ih _ _ hws']
      rw [List.map_append, List.map_append, List.flatten_append, List.flatten_append]
      simp only [List.map_cons, List.map_nil, List.flatten_cons, List.flatten_nil,
        splitOnSpace_append_space w hw line]
      by_cases hwe : w = [] <;> simp [List.filter_append, List.filter_cons, hwe]
    · rw [ih _ _ hws']
      rw [List.map_append, List.map_append, List.flatten_append, List.flatten_append]
      simp only [List.map_cons, List.map_nil, List.flatten_cons, List.flatten_nil,
        splitOnSpace_no_space w hw]
      by_cases hwe : w = [] <;> simp [List.filter_append, List.filter_cons, hwe]

theorem wrap_nicely_words (s : List Char) (n : Nat) :
    ((wrap_nicely s n).map splitOnSpace).flatten.filter (fun w => !w.isEmpty) =
      (splitOnSpace (cleanNewlines s)).filter (fun w => !w.isEmpty) := by
  rcases hsplit : splitOnSpace (cleanNewlines s) with _ | ⟨w1, ws'⟩
  · exact absurd hsplit (splitOnSpace_ne_nil _)
  · have hnos : ∀ w ∈ w1 :: ws', ' ' ∉ w := by
      rw [← hsplit]; exact splitOnSpace_mem_no_space _
    have hnos' : ∀ w ∈ ws', ' ' ∉ w := fun w hw => hnos w (List.mem_cons_of_mem _ hw)
    have e3 : splitOnSpace w1 = [w1] :=
      splitOnSpace_no_space w1 (hnos w1 (List.mem_cons_self _ _))
    unfold wrap_nicely
    rw [hsplit]
    simp only [wrapLoop]
    by_cases hfit : ([] : List Char).length + 1 + w1.length ≤ n
    · rw [if_pos hfit]
      simp only [List.nil_append]
      obtain ⟨t', rest, hres⟩ := wrapLoop_head_cons n ws' ' ' w1
      rw [hres]
      have hL := wrapLoop_words n ws' (' ' :: w1) [] hnos'
      rw [hres] at hL
      have e1 : splitOnSpace (' ' :: t') = [] :: splitOnSpace t' :=
        splitOnSpace_cons_space t'
      have e2 : splitOnSpace (' ' :: w1) = [] :: splitOnSpace w1 :=
        splitOnSpace_cons_space w1
      by_cases hw1 : w1 = [] <;>
        simpa [e1, e2, e3, hw1, List.filter_append, List.filter_cons] using hL
    · rw [if_neg hfit]
      rw [wrapLoop_append]
      have hL := wrapLoop_words n ws' w1 [] hnos'
      have e0 : splitOnSpace ([] : List Char) = [[]] := rfl
      simp only [List.nil_append, List.singleton_append]
      by_cases hw1 : w1 = [] <;>
        simpa [e0, e3, hw1, List.filter_append, List.filter_cons] using hL

/-! ### Claim theorems: word wrap -/

/-- C2: for every string `s` and `max_chars` `n > 0`, each line returned by
`wrap_nicely s n` either has length at most `n`, or is a single overlong word
of the (newline-stripped) input reproduced unmodified on its own line; and no
word is ever split across two lines: splitting the returned lines back on
spaces recovers, in order, exactly the nonempty space-delimited words of the
newline-stripped input. -/
theorem claim_C2_wrap_line_bounds (s : List Char) (n : Nat) (h : 0 < n) :
    (∀ l ∈ wrap_nicely s n,
      l.length ≤ n ∨ (n < l.length ∧ l ∈ splitOnSpace (cleanNewlines s))) ∧
    ((wrap_nicely s n).map splitOnSpace).flatten.filter (fun w => !w.isEmpty) =
      (splitOnSpace (cleanNewlines s)).filter (fun w => !w.isEmpty) := by
  refine ⟨?_, wrap_nicely_words s n⟩
  intro l hl
  unfold wrap_nicely at hl
  rcases hsp : wrapLoop n (splitOnSpace (cleanNewlines s)) [] [] with _ | ⟨l0, rest⟩
  · rw [hsp] at hl
    simp at hl
  · rw [hsp] at hl
    simp only [List.mem_cons] at hl
    rcases hl with hl | hl
    · subst hl
      have h0 : l0.length ≤ n := wrapLoop_head_le n _ [] l0 rest (by simp) hsp
      exact Or.inl (le_trans (by simpa using List.length_drop 1 l0 ▸ Nat.sub_le _ _) h0)
    · by_cases hle : l.length ≤ n
      · exact Or.inl hle
      · refine Or.inr ⟨lt_of_not_le hle, ?_⟩
        have := wrapLoop_mem n _ [] l (hsp ▸ List.mem_cons_of_mem l0 hl)
        rcases this with h' | h' | h'
        · exact absurd h' hle
        · exact h'
        · subst h'
          exact absurd (Nat.zero_le n) (by simpa using hle)

/-- C3 (counterexample): joining the lines of `wrap_nicely "ab" 1` with single
spaces yields `" ab"`, not the whitespace-collapsed original `"ab"` (the input
contains no whitespace at all, so it is its own whitespace-collapsed form):
the flushed empty first line contributes a leading space. -/
theorem claim_C3_counterexample :
    cleanNewlines "ab".toList = "ab".toList ∧
    joinSpaces (wrap_nicely "ab".toList 1) = ' ' :: "ab".toList ∧
    joinSpaces (wrap_nicely "ab".toList 1) ≠ "ab".toList := by
  refine ⟨by decide, by decide, by decide⟩

/-- C3 (amended): for every string `s` and `n > 0` such that the
newline-stripped input splits into nonempty words whose first word fits on a
line (`w1.length + 1 ≤ n`), joining the lines of `wrap_nicely s n` with single
spaces reconstructs the newline-stripped original string. -/
theorem claim_C3_wrap_join (s : List Char) (n : Nat) (w1 : List Char)
    (ws : List (List Char))
    (hsplit : splitOnSpace (cleanNewlines s) = w1 :: ws)
    (hfit : w1.length + 1 ≤ n)
    (hne : ∀ w ∈ splitOnSpace (cleanNewlines s), w ≠ []) :
    joinSpaces (wrap_nicely s n) = cleanNewlines s := by
  unfold wrap_nicely
  rw [hsplit]
  simp only [wrapLoop]
  rw [if_pos (by simp only [List.length_nil]; omega)]
  simp only [List.nil_append]
  obtain ⟨t', rest, hres⟩ := wrapLoop_head_cons n ws ' ' w1
  rw [hres]
  have hws : ∀ w ∈ ws, w ≠ [] := fun w hw => hne w (hsplit ▸ List.mem_cons_of_mem _ hw)
  have hJ := wrapLoop_join n ws (' ' :: w1) [] hws (by simp)
  rw [hres, joinSpaces_cons_head] at hJ
  simp only [List.nil_append] at hJ
  have hJ' : joinSpaces [' ' :: w1] = ' ' :: w1 := rfl
  rw [hJ'] at hJ
  simp only [List.cons_append] at hJ
  injection hJ with h1 h2
  simp only [List.drop_succ_cons, List.drop_zero]
  rw [h2, ← joinSpaces_eq_join_map, ← hsplit, joinSpaces_splitOnSpace]

/-- C10: for every `n > 0`, if the first space-delimited word of the
newline-stripped input is strictly longer than `n`, then `wrap_nicely`
returns a list that begins with the empty string, with the overlong word as
the second element. -/
theorem claim_C10_overlong_first_word (s : List Char) (n : Nat) (w1 : List Char)
    (ws : List (List Char))
    (h : 0 < n)
    (hsplit : splitOnSpace (cleanNewlines s) = w1 :: ws)
    (hlong : n < w1.length) :
    ∃ rest, wrap_nicely s n = [] :: w1 :: rest := by
  unfold wrap_nicely
  rw [hsplit]
  simp only [wrapLoop]
  rw [if_neg (by simpa using by omega)]
  rw [wrapLoop_append]
  obtain ⟨rest, hrest⟩ := wrapLoop_overlong n ws w1 hlong
  rw [hrest]
  exact ⟨rest, by simp⟩

/-- Witness for C2 at a concrete input: both the line-bound disjunction at a
concrete line and the word-decomposition equality. -/
theorem claim_C2_wrap_line_bounds_witness :
    ("The quick".toList.length ≤ 10 ∨
      (10 < "The quick".toList.length ∧
        "The quick".toList ∈
          splitOnSpace (cleanNewlines "The quick brown fox".toList))) ∧
    ((wrap_nicely "The quick brown fox".toList 10).map
        splitOnSpace).flatten.filter (fun w => !w.isEmpty) =
      (splitOnSpace (cleanNewlines "The quick brown fox".toList)).filter
        (fun w => !w.isEmpty) :=
  ⟨(claim_C2_wrap_line_bounds "The quick brown fox".toList 10 (by decide)).1
      "The quick".toList (by decide),
   (claim_C2_wrap_line_bounds "The quick brown fox".toList 10 (by decide)).2⟩

/-- Witness for the amended C3 at a concrete input. -/
theorem claim_C3_wrap_join_witness :
    joinSpaces (wrap_nicely "The quick brown fox".toList 10) =
      cleanNewlines "The quick brown fox".toList :=
  claim_C3_wrap_join "The quick brown fox".toList 10 "The".toList
    ["quick".toList, "brown".toList, "fox".toList] (by decide) (by decide) (by decide)

/-- Witness for C10 at a concrete input. -/
theorem claim_C10_overlong_first_word_witness :
    ∃ rest, wrap_nicely "abcdef gh".toList 3 = [] :: "abcdef".toList :: rest :=
  claim_C10_overlong_first_word "abcdef gh".toList 3 "abcdef".toList ["gh".toList]
    (by decide) (by decide) (by decide)

/-! ### Lemmas about `_json_traverse` -/

theorem jsonTraverseFrom_nil (c : List PathElem) (v : JSONValue) :
    jsonTraverseFrom c v [] = .ok v := rfl

theorem jsonTraverseFrom_cons (c : List PathElem) (v : JSONValue) (x : PathElem)
    (xs : List PathElem) :
    jsonTraverseFrom c v (x :: xs) =
      match getElem v x with
      | .ok v' => jsonTraverseFrom (c ++ [x]) v' xs
      | .error e => .error ⟨c, v, x, e⟩ := rfl

theorem jsonTraverseFrom_ok_iff (path : List PathElem) :
    ∀ (v : JSONValue) (c : List PathElem) (w : JSONValue),
      jsonTraverseFrom c v path = .ok w ↔ jsonTraverse v path = .ok w := by
  induction path with
  | nil => intro v c w; simp [jsonTraverse, jsonTraverseFrom_nil]
  | cons x xs ih =>
    intro v c w
    rw [jsonTraverse, jsonTraverseFrom_cons, jsonTraverseFrom_cons]
    cases h : getElem v x with
    | ok v' => rw [ih v' (c ++ [x]) w, ← ih v' ([] ++ [x]) w]
    | error e => simp

theorem jsonTraverse_cons (v : JSONValue) (x : PathElem) (xs : List PathElem) :
    jsonTraverse v (x :: xs) =
      match getElem v x with
      | .ok v' => jsonTraverseFrom [x] v' xs
      | .error e => .error ⟨[], v, x, e⟩ := rfl

theorem jsonTraverse_append_ok (p : List PathElem) :
    ∀ (v : JSONValue) (q : List PathElem) (w : JSONValue),
      jsonTraverse v (p ++ q) = .ok w ↔
        ∃ u, jsonTraverse v p = .ok u ∧ jsonTraverse u q = .ok w := by
  induction p with
  | nil =>
    intro v q w
    simp [jsonTraverse, jsonTraverseFrom_nil]
  | cons x xs ih =>
    intro v q w
    rw [List.cons_append, jsonTraverse_cons, jsonTraverse_cons]
    cases h : getElem v x with
    | ok v' =>
      rw [jsonTraverseFrom_ok_iff _ v' [x] w, ih v' q w]
      constructor
      · rintro ⟨u, hu, hq⟩
        exact ⟨u, (jsonTraverseFrom_ok_iff _ v' [x] u).mpr hu, hq⟩
      · rintro ⟨u, hu, hq⟩
        exact ⟨u, (jsonTraverseFrom_ok_iff _ v' [x] u).mp hu, hq⟩
    | error e => simp

theorem jsonTraverseFrom_error (path : List PathElem) :
    ∀ (v : JSONValue) (c : List PathElem) (e : NotFound),
      jsonTraverseFrom c v path = .error e →
        ∃ pre rest, path = pre ++ e.failed :: rest ∧
          e.consumed = c ++ pre ∧
          jsonTraverse v pre = .ok e.state ∧
          getElem e.state e.failed = .error e.kind := by
  induction path with
  | nil => intro v c e h; exact absurd h (by simp [jsonTraverseFrom_nil])
  | cons x xs ih =>
    intro v c e h
    rw [jsonTraverseFrom_cons] at h
    cases hg : getElem v x with
    | ok v' =>
      rw [hg] at h
      obtain ⟨pre, rest, h1, h2, h3, h4⟩ := ih v' (c ++ [x]) e h
      refine ⟨x :: pre, rest, by rw [h1]; rfl, by rw [h2]; simp, ?_, h4⟩
      rw [jsonTraverse_cons, hg]
      rw [jsonTraverseFrom_ok_iff]
      exact h3
    | error k =>
      rw [hg] at h
      injection h with h'
      subst h'
      exact ⟨[], xs, rfl, by simp, by simp [jsonTraverse, jsonTraverseFrom_nil], hg⟩

/-! ### Claim theorem: JSON-path extraction -/

/-- C5: `_json_traverse` walks the parsed structure one path element at a
time (traversal over a concatenated path factors through the intermediate
value) and returns the value at the end of the path; on a missing key or
index it raises an exception carrying the consumed partial path, the
structure state at the point of failure, and the failing element, and never
returns a partial result: `traverse({"a":{"b":5}}, ["a","b"]) = 5` while
`traverse({"a":{"b":5}}, ["a","z"])` raises `KeyError` at partial path
`["a"]` with state `{"b":5}`. -/
theorem claim_C5_json_traverse :
    (jsonTraverse (.obj [(['a'], .obj [(['b'], .num 5)])])
        [.key ['a'], .key ['b']] = .ok (.num 5)) ∧
    (∀ (v : JSONValue) (p q : List PathElem) (w : JSONValue),
      jsonTraverse v (p ++ q) = .ok w ↔
        ∃ u, jsonTraverse v p = .ok u ∧ jsonTraverse u q = .ok w) ∧
    (∀ (v : JSONValue) (path : List PathElem) (e : NotFound),
      jsonTraverse v path = .error e →
        ∃ rest, path = e.consumed ++ e.failed :: rest ∧
          jsonTraverse v e.consumed = .ok e.state ∧
          getElem e.state e.failed = .error e.kind) ∧
    (jsonTraverse (.obj [(['a'], .obj [(['b'], .num 5)])])
        [.key ['a'], .key ['z']] =
      .error ⟨[.key ['a']], .obj [(['b'], .num 5)], .key ['z'], .keyError⟩) := by
  refine ⟨by decide, fun v p q w => jsonTraverse_append_ok p v q w, ?_, by decide⟩
  intro v path e h
  obtain ⟨pre, rest, h1, h2, h3, h4⟩ := jsonTraverseFrom_error path v [] e h
  simp only [List.nil_append] at h2
  exact ⟨rest, h2 ▸ h1, h2 ▸ h3, h4⟩

/-! ### Lemmas about the resize arithmetic -/

theorem nat_lt_div_add_one_mul (a b : Nat) (hb : 0 < b) : a < (a / b + 1) * b := by
  have hdm := Nat.div_add_mod a b
  have hmod : a % b < b := Nat.mod_lt _ hb
  calc a = b * (a / b) + a % b := hdm.symm
    _ < b * (a / b) + b := by omega
    _ = (a / b + 1) * b := by ring

/-! ### Claim theorems: image resize -/

/-- C7 (counterexample): a 10x3 source resized into a 4x4 target selects the
scale-by-height branch and yields scaled dimensions (13, 4), whose ratio
13/4 differs from the source ratio 10/3 — floor division does not preserve
the aspect ratio exactly. -/
theorem claim_C7_counterexample :
    resize_dims 10 3 4 4 = (13, 4) ∧
    ((resize_dims 10 3 4 4).1 : ℚ) / ((resize_dims 10 3 4 4).2 : ℚ) ≠
      (10 : ℚ) / (3 : ℚ) := by
  have h : resize_dims 10 3 4 4 = (13, 4) := by decide
  refine ⟨h, ?_⟩
  rw [h]
  norm_num

/-- C7 (amended): `resize_image` picks the branch the claim describes
(scale by height exactly when `target_ratio < image_ratio`, i.e.
`w * ih < iw * h`), fixes one dimension to the target and computes the other
as the floor of the exact ratio-preserving value, so the source aspect ratio
is preserved up to floor rounding (within one unit of the cross product) and
exactly whenever the divisions are exact. -/
theorem claim_C7_resize_ratio (iw ih w h : Nat) (hiw : 0 < iw) (hih : 0 < ih) :
    (w * ih < iw * h →
      (resize_dims iw ih w h).2 = h ∧
      (resize_dims iw ih w h).1 * ih ≤ iw * h ∧
      iw * h < ((resize_dims iw ih w h).1 + 1) * ih) ∧
    (¬ w * ih < iw * h →
      (resize_dims iw ih w h).1 = w ∧
      (resize_dims iw ih w h).2 * iw ≤ ih * w ∧
      ih * w < ((resize_dims iw ih w h).2 + 1) * iw) ∧
    (ih ∣ iw * h → iw ∣ ih * w →
      (resize_dims iw ih w h).1 * ih = iw * (resize_dims iw ih w h).2) := by
  by_cases hc : w * ih < iw * h
  · have hr : resize_dims iw ih w h = (iw * h / ih, h) := by
      rw [resize_dims, if_pos hc]
    rw [hr]
    exact ⟨fun _ => ⟨rfl, Nat.div_mul_le_self _ _, nat_lt_div_add_one_mul _ _ hih⟩,
      fun hn => absurd hc hn, fun hdvd _ => Nat.div_mul_cancel hdvd⟩
  · have hr : resize_dims iw ih w h = (w, ih * w / iw) := by
      rw [resize_dims, if_neg hc]
    rw [hr]
    refine ⟨fun hlt => absurd hlt hc,
      fun _ => ⟨rfl, Nat.div_mul_le_self _ _, nat_lt_div_add_one_mul _ _ hiw⟩,
      fun _ hdvd => ?_⟩
    show w * ih = iw * (ih * w / iw)
    rw [Nat.mul_comm iw _, Nat.div_mul_cancel hdvd, Nat.mul_comm w ih]

/-- Witness for the amended C7 at the counterexample input. -/
theorem claim_C7_resize_ratio_witness :
    (resize_dims 10 3 4 4).2 = 4 ∧
    (resize_dims 10 3 4 4).1 * 3 ≤ 10 * 4 ∧
    10 * 4 < ((resize_dims 10 3 4 4).1 + 1) * 3 :=
  (claim_C7_resize_ratio 10 3 4 4 (by decide) (by decide)).1 (by decide)

/-! ### Lemmas about the QR bitmap loops -/

theorem transcribeRow_nil (m : QRMatrix) (xx : Nat) (b : Nat → Nat → Nat) :
    transcribeRow m xx [] b = b := rfl

theorem transcribeRow_cons (m : QRMatrix) (xx y0 : Nat) (ys : List Nat)
    (b : Nat → Nat → Nat) :
    transcribeRow m xx (y0 :: ys) b =
      transcribeRow m xx ys
        (setCell b (xx + 1) (y0 + 1) (if m.get xx y0 then 1 else 0)) := rfl

theorem transcribeRow_ne_x (m : QRMatrix) (xx : Nat) (ys : List Nat) :
    ∀ (b : Nat → Nat → Nat) (x y : Nat), x ≠ xx + 1 →
      transcribeRow m xx ys b x y = b x y := by
  induction ys with
  | nil => intro b x y _; rfl
  | cons y0 ys ih =>
    intro b x y hx
    rw [transcribeRow_cons, ih _ _ _ hx]
    simp [setCell, hx]

theorem transcribeRow_ne_y (m : QRMatrix) (xx : Nat) (ys : List Nat) :
    ∀ (b : Nat → Nat → Nat) (x y : Nat), (∀ yy ∈ ys, y ≠ yy + 1) →
      transcribeRow m xx ys b x y = b x y := by
  induction ys with
  | nil => intro b x y _; rfl
  | cons y0 ys ih =>
    intro b x y hy
    rw [transcribeRow_cons, ih _ _ _ (fun yy hyy => hy yy (List.mem_cons_of_mem _ hyy))]
    simp [setCell, hy y0 (List.mem_cons_self _ _)]

theorem transcribeRow_at (m : QRMatrix) (xx : Nat) :
    ∀ (ys : List Nat) (b : Nat → Nat → Nat) (yy : Nat), ys.Nodup → yy ∈ ys →
      transcribeRow m xx ys b (xx + 1) (yy + 1) =
        (if m.get xx yy then 1 else 0) := by
  intro ys
  induction ys with
  | nil => intro b yy _ hmem; simp at hmem
  | cons y0 ys ih =>
    intro b yy hnd hmem
    rw [List.nodup_cons] at hnd
    rcases List.mem_cons.mp hmem with h | h
    · subst h
      rw [transcribeRow_cons]
      rw [transcribeRow_ne_y m xx ys _ _ _
        (fun y' hy' hne => hnd.1 (by rw [Nat.succ.inj hne]; exact hy'))]
      simp [setCell]
    · rw [transcribeRow_cons, ih _ yy hnd.2 h]

theorem transcribe_nil (m : QRMatrix) (b : Nat → Nat → Nat) :
    transcribe m [] b = b := rfl

theorem transcribe_cons (m : QRMatrix) (x0 : Nat) (xs : List Nat)
    (b : Nat → Nat → Nat) :
    transcribe m (x0 :: xs) b =
      transcribe m xs (transcribeRow m x0 (List.range m.height) b) := rfl

theorem transcribe_ne_x (m : QRMatrix) :
    ∀ (xs : List Nat) (b : Nat → Nat → Nat) (x y : Nat),
      (∀ xx ∈ xs, x ≠ xx + 1) → transcribe m xs b x y = b x y := by
  intro xs
  induction xs with
  | nil => intro b x y _; rfl
  | cons x0 xs ih =>
    intro b x y hx
    rw [transcribe_cons, ih _ _ _ (fun xx hxx => hx xx (List.mem_cons_of_mem _ hxx))]
    exact transcribeRow_ne_x m x0 _ _ _ _ (hx x0 (List.mem_cons_self _ _))

theorem transcribe_ne_y (m : QRMatrix) :
    ∀ (xs : List Nat) (b : Nat → Nat → Nat) (x y : Nat),
      (∀ yy ∈ List.range m.height, y ≠ yy + 1) → transcribe m xs b x y = b x y := by
  intro xs
  induction xs with
  | nil => intro b x y _; rfl
  | cons x0 xs ih =>
    intro b x y hy
    rw [transcribe_cons, ih _ _ _ hy]
    exact transcribeRow_ne_y m x0 _ _ _ _ hy

theorem transcribe_at (m : QRMatrix) :
    ∀ (xs : List Nat) (b : Nat → Nat → Nat) (xx yy : Nat),
      xs.Nodup → xx ∈ xs → yy < m.height →
      transcribe m xs b (xx + 1) (yy + 1) = (if m.get xx yy then 1 else 0) := by
  intro xs
  induction xs with
  | nil => intro b xx yy _ hmem _; simp at hmem
  | cons x0 xs ih =>
    intro b xx yy hnd hmem hyy
    rw [List.nodup_cons] at hnd
    rcases List.mem_cons.mp hmem with h | h
    · subst h
      rw [transcribe_cons]
      rw [transcribe_ne_x m xs _ _ _
        (fun x' hx' hne => hnd.1 (by rw [Nat.succ.inj hne]; exact hx'))]
      exact transcribeRow_at m xx _ _ yy (List.nodup_range _) (List.mem_range.mpr hyy)
    · rw [transcribe_cons, ih _ xx yy hnd.2 h hyy]

/-! ### Claim theorem: QR bitmap -/

/-- C4: for every generated symbol matrix of size MxN, the bitmap built by
`show_QR` has dimensions (M+2)x(N+2), every cell on the one-cell border is 0
(light), and interior cell (x+1, y+1) is 1 exactly when matrix cell (x, y)
is dark, 0 otherwise. -/
theorem claim_C4_qr_bitmap (m : QRMatrix) :
    qrBitmapWidth m = m.width + 2 ∧ qrBitmapHeight m = m.height + 2 ∧
    (∀ x y, x < qrBitmapWidth m → y < qrBitmapHeight m →
      (x = 0 ∨ x = m.width + 1 ∨ y = 0 ∨ y = m.height + 1) →
      qrBitmap m x y = 0) ∧
    (∀ x y, x < m.width → y < m.height →
      qrBitmap m (x + 1) (y + 1) = (if m.get x y then 1 else 0)) := by
  refine ⟨rfl, rfl, ?_, ?_⟩
  · intro x y _ _ hb
    unfold qrBitmap
    rcases hb with h | h | h | h
    · subst h
      exact transcribe_ne_x m _ _ _ _ (fun xx _ => by omega)
    · subst h
      refine transcribe_ne_x m _ _ _ _ (fun xx hxx => ?_)
      have := List.mem_range.mp hxx
      omega
    · subst h
      exact transcribe_ne_y m _ _ _ _ (fun yy _ => by omega)
    · subst h
      refine transcribe_ne_y m _ _ _ _ (fun yy hyy => ?_)
      have := List.mem_range.mp hyy
      omega
  · intro x y hx hy
    exact transcribe_at m _ _ x y (List.nodup_range _) (List.mem_range.mpr hx) hy

/-- Witness for C4 on a concrete 2x2 matrix: a border cell is 0 and an
interior cell reflects the matrix. -/
theorem claim_C4_qr_bitmap_witness :
    qrBitmap ⟨2, 2, fun x y => x == 0 && y == 1⟩ 0 0 = 0 ∧
    qrBitmap ⟨2, 2, fun x y => x == 0 && y == 1⟩ (0 + 1) (1 + 1) =
      (if (QRMatrix.mk 2 2 (fun x y => x == 0 && y == 1)).get 0 1 then 1 else 0) :=
  ⟨(claim_C4_qr_bitmap _).2.2.1 0 0 (by decide) (by decide) (Or.inl rfl),
   (claim_C4_qr_bitmap _).2.2.2 0 1 (by decide) (by decide)⟩

/-! ### Lemmas about the `fetch` pipeline -/

theorem exBind_ok {α β : Type} (a : α) (f : α → Except PyErr β) :
    exBind (.ok a) f = f a := rfl

theorem exBind_error {α β : Type} (e : PyErr) (f : α → Except PyErr β) :
    exBind (.error e) f = .error e := rfl

theorem fetch_ok_inv (cfg : Config) (env : Env) (out : FetchOut)
    (hfe : fetch cfg env = .ok out) :
    ∃ r j0 j ex iu dims bgs2 texts,
      acquire cfg env = .ok r ∧
      parseStage cfg r = .ok j0 ∧
      transformStage cfg.json_transform j0 = .ok j ∧
      extractStage cfg r j = .ok ex ∧
      imageUrlStage cfg j = .ok iu ∧
      dimStage cfg j = .ok dims ∧
      imageStage cfg iu.1 dims.1 dims.2 env = .ok bgs2 ∧
      textStage cfg ex = .ok texts ∧
      out = ⟨mkReturn ex, iu.2 ++ bgs2, texts, cfg.success_callback,
        !cfg.uselocal⟩ := by
  unfold fetch at hfe
  cases hacq : acquire cfg env with
  | error e0 => rw [hacq, exBind_error] at hfe; exact Except.noConfusion hfe
  | ok r =>
    simp only [hacq, exBind_ok] at hfe
    cases hp : parseStage cfg r with
    | error e0 => rw [hp, exBind_error] at hfe; exact Except.noConfusion hfe
    | ok j0 =>
      simp only [hp, exBind_ok] at hfe
      cases ht : transformStage cfg.json_transform j0 with
      | error e0 => rw [ht, exBind_error] at hfe; exact Except.noConfusion hfe
      | ok j =>
        simp only [ht, exBind_ok] at hfe
        cases hex : extractStage cfg r j with
        | error e0 => rw [hex, exBind_error] at hfe; exact Except.noConfusion hfe
        | ok ex =>
          simp only [hex, exBind_ok] at hfe
          cases hiu : imageUrlStage cfg j with
          | error e0 => rw [hiu, exBind_error] at hfe; exact Except.noConfusion hfe
          | ok iu =>
            simp only [hiu, exBind_ok] at hfe
            cases hd : dimStage cfg j with
            | error e0 => rw [hd, exBind_error] at hfe; exact Except.noConfusion hfe
            | ok dims =>
              simp only [hd, exBind_ok] at hfe
              cases him : imageStage cfg iu.1 dims.1 dims.2 env with
              | error e0 =>
                rw [him, exBind_error] at hfe; exact Except.noConfusion hfe
              | ok bgs2 =>
                simp only [him, exBind_ok] at hfe
                cases htx : textStage cfg ex with
                | error e0 =>
                  rw [htx, exBind_error] at hfe; exact Except.noConfusion hfe
                | ok texts =>
                  simp only [htx, exBind_ok] at hfe
                  injection hfe with h
                  exact ⟨r, j0, j, ex, iu, dims, bgs2, texts, rfl, hp, ht, hex,
                    hiu, hd, him, htx, h.symm⟩

theorem fetch_eq_build (cfg : Config) (env : Env) (r : NetResp) (j0 j : JSONValue)
    (ex : Extracted) (iu : Option JSONValue × List BgCall) (dims : Int × Int)
    (bgs2 : List BgCall) (texts : List (List Char))
    (hacq : acquire cfg env = .ok r) (hp : parseStage cfg r = .ok j0)
    (ht : transformStage cfg.json_transform j0 = .ok j)
    (hex : extractStage cfg r j = .ok ex)
    (hiu : imageUrlStage cfg j = .ok iu)
    (hd : dimStage cfg j = .ok dims)
    (him : imageStage cfg iu.1 dims.1 dims.2 env = .ok bgs2)
    (htx : textStage cfg ex = .ok texts) :
    fetch cfg env = .ok ⟨mkReturn ex, iu.2 ++ bgs2, texts,
      cfg.success_callback, !cfg.uselocal⟩ := by
  unfold fetch
  simp only [hacq, hp, ht, hex, hiu, hd, him, htx, exBind_ok]

theorem fetch_bodyFromNetwork (cfg : Config) (env : Env) (out : FetchOut)
    (hfe : fetch cfg env = .ok out) : out.bodyFromNetwork = !cfg.uselocal := by
  obtain ⟨r, j0, j, ex, iu, dims, bgs2, texts, _, _, _, _, _, _, _, _, hout⟩ :=
    fetch_ok_inv cfg env out hfe
  rw [hout]

theorem fetch_no_wget_indep (cfg : Config) (env : Env) (h : cfg.uselocal = true)
    (hng : wgetAttempted cfg env = false) (w r s : Except PyErr Unit)
    (x : Except PyErr NetResp) :
    fetch cfg { envWith env w r s with netResult := x } = fetch cfg env := by
  have ha : acquire cfg { envWith env w r s with netResult := x } =
      acquire cfg env := by
    simp [acquire, envWith, h]
  unfold wgetAttempted at hng
  unfold fetch
  rw [ha]
  cases hacq : acquire cfg env with
  | error e0 => rfl
  | ok r0 =>
    simp only [hacq] at hng
    simp only [exBind_ok]
    cases hp : parseStage cfg r0 with
    | error e0 => rfl
    | ok j0 =>
      simp only [hp] at hng
      simp only [exBind_ok]
      cases ht : transformStage cfg.json_transform j0 with
      | error e0 => rfl
      | ok j =>
        simp only [ht] at hng
        simp only [exBind_ok]
        cases hex : extractStage cfg r0 j with
        | error e0 => rfl
        | ok ex =>
          simp only [hex] at hng
          simp only [exBind_ok]
          cases hiu : imageUrlStage cfg j with
          | error e0 => rfl
          | ok iu =>
            simp only [hiu] at hng
            simp only [exBind_ok]
            cases hd : dimStage cfg j with
            | error e0 => rfl
            | ok dims =>
              simp only [hd] at hng
              simp only [exBind_ok]
              have him : imageStage cfg iu.1 dims.1 dims.2
                  { envWith env w r s with netResult := x } =
                  imageStage cfg iu.1 dims.1 dims.2 env := by
                cases hu : iu.1 with
                | none => rfl
                | some v =>
                  simp only [hu] at hng
                  simp [imageStage, hng]
              rw [him]

theorem fetch_net_indep (cfg : Config) (env : Env) (x : Except PyErr NetResp)
    (h : cfg.uselocal = true) :
    fetch cfg { env with netResult := x } = fetch cfg env := by
  have ha : acquire cfg { env with netResult := x } = acquire cfg env := by
    simp [acquire, h]
  have hi : ∀ iu iw ih, imageStage cfg iu iw ih { env with netResult := x } =
      imageStage cfg iu iw ih env := fun _ _ _ => rfl
  unfold fetch
  rw [ha]
  simp only [hi]

theorem fetchCall_uselocal (cfg : Config) (ref : Option (List Char)) (env : Env) :
    (fetchCall cfg ref env).1.uselocal = cfg.uselocal := by
  cases ref <;> rfl

theorem fetchCall_snd (cfg : Config) (ref : Option (List Char)) (env : Env) :
    (fetchCall cfg ref env).2 = fetch (fetchCall cfg ref env).1 env := by
  cases ref <;> rfl

theorem fetchCall_net_indep (cfg : Config) (ref : Option (List Char)) (env : Env)
    (x : Except PyErr NetResp) (h : cfg.uselocal = true) :
    (fetchCall cfg ref { env with netResult := x }).2 =
      (fetchCall cfg ref env).2 ∧
    (fetchCall cfg ref { env with netResult := x }).1 =
      (fetchCall cfg ref env).1 := by
  cases ref <;> exact ⟨fetch_net_indep _ _ _ h, rfl⟩

/-! ### Claim theorems: orchestration -/

/-- C1 (counterexample): with an image configured, a download failure that
raises an exception other than `ValueError` (as `wget`'s network errors do)
is NOT caught by the image block's `except ValueError` handler: the cycle
aborts and the extracted values are not returned, even though the same cycle
succeeds (returning the value 5) when the download works. -/
theorem claim_C1_counterexample :
    fetch cfgLocalJson
        (envWith envLocalJson (.error .otherError) (.ok ()) (.ok ())) =
      .error .otherError ∧
    fetch cfgLocalJson envLocalJson =
      .ok ⟨.one (.num 5), [(.file cacheName, some (0, 0))], [], false, false⟩ :=
  ⟨by decide, by decide⟩

/-- C1 (amended): a failure during image resolution that raises `ValueError`
(the only class the handler catches) is caught internally: the cycle still
succeeds, with the same returned values and the same text-slot strings as
the failure-free cycle, and the configured default background substituted
for the image. -/
theorem claim_C1_image_valueerror (cfg : Config) (e : Env)
    (w r s : Except PyErr Unit) (out : FetchOut) (u : List Char)
    (hurl : cfg.image_url_path = some u) (hune : u ≠ [])
    (hijson : cfg.image_json_path = none)
    (hfail : ∀ iw ih : Int,
      imageTry cfg iw ih (envWith e w r s) = .error .valueError)
    (hok : fetch cfg (envWith e (.ok ()) (.ok ()) (.ok ())) = .ok out) :
    fetch cfg (envWith e w r s) =
      .ok { out with bgCalls := [(cfg.default_bg, none)] } := by
  obtain ⟨r0, j0, j, ex, iu, dims, bgs2, texts, hacq, hp, ht, hex, hiu, hd,
    him, htx, hout⟩ := fetch_ok_inv _ _ _ hok
  have hiu2 : iu = (staticImageUrl cfg, []) := by
    unfold imageUrlStage at hiu
    rw [hijson] at hiu
    exact (Except.ok.inj hiu).symm
  obtain ⟨c, cs, rfl⟩ : ∃ c cs, u = c :: cs := by
    cases u with
    | nil => exact absurd rfl hune
    | cons c cs => exact ⟨c, cs, rfl⟩
  have hstat : staticImageUrl cfg = some (.str (c :: cs)) := by
    unfold staticImageUrl
    rw [hurl]
  have h1 : iu.1 = some (.str (c :: cs)) := by rw [hiu2]; exact hstat
  have hacq2 : acquire cfg (envWith e w r s) = .ok r0 := hacq
  have him2 : imageStage cfg iu.1 dims.1 dims.2 (envWith e w r s) =
      .ok [(cfg.default_bg, none)] := by
    rw [h1]
    unfold imageStage
    rw [hfail dims.1 dims.2]
    simp [pyTruthy]
  have hb := fetch_eq_build cfg (envWith e w r s) r0 j0 j ex iu dims
    [(cfg.default_bg, none)] texts hacq2 hp ht hex hiu hd him2 htx
  rw [hb, hout]
  simp [hiu2]

/-- Witness for the amended C1: a `ValueError` download failure on the
concrete instance yields the same value and texts with the default
background substituted. -/
theorem claim_C1_image_valueerror_witness :
    fetch cfgLocalJson
        (envWith envLocalJson (.error .valueError) (.ok ()) (.ok ())) =
      .ok { (⟨.one (.num 5), [(.file cacheName, some (0, 0))], [], false,
              false⟩ : FetchOut) with
            bgCalls := [(cfgLocalJson.default_bg, none)] } :=
  claim_C1_image_valueerror cfgLocalJson envLocalJson (.error .valueError)
    (.ok ()) (.ok ())
    ⟨.one (.num 5), [(.file cacheName, some (0, 0))], [], false, false⟩ ['u']
    rfl (by decide) rfl (fun _ _ => rfl) (by decide)

/-- C6 (counterexample): a local-override instance (`uselocal` true) with an
image configured still issues a network request: the cycle reaches the
`self.wget(image_url, ...)` download of the image block (line 794), and its
outcome depends on that download — so "never issues a network request" is
false per the source. -/
theorem claim_C6_counterexample :
    cfgLocalJson.uselocal = true ∧
    wgetAttempted cfgLocalJson envLocalJson = true ∧
    fetch cfgLocalJson
        (envWith envLocalJson (.error .otherError) (.ok ()) (.ok ())) ≠
      fetch cfgLocalJson (envWith envLocalJson (.ok ()) (.ok ()) (.ok ())) :=
  ⟨rfl, by decide, by decide⟩

/-- C6 (amended): once local-override mode is active, every `fetch` call in
any sequence of calls against the instance reads the fallback file instead
of performing the body-acquisition network GET: no result ever records a
networked body acquisition, the results are unchanged under arbitrary
replacement of every call's network GET outcome, and the mode persists
across every call of the sequence.  However, local-override mode does not
suppress the image block: only a cycle that never reaches the `wget` image
download is independent of all external-transfer outcomes. -/
theorem claim_C6_local_override (cfg : Config) (h : cfg.uselocal = true)
    (calls : List (Option (List Char) × Env)) :
    (∀ res ∈ runCalls cfg calls, ∀ out : FetchOut, res = .ok out →
      out.bodyFromNetwork = false) ∧
    (∀ net : Except PyErr NetResp,
      runCalls cfg (calls.map (fun c => (c.1, { c.2 with netResult := net }))) =
        runCalls cfg calls) ∧
    (∀ (env : Env) (w r s : Except PyErr Unit) (x : Except PyErr NetResp),
      wgetAttempted cfg env = false →
      fetch cfg { envWith env w r s with netResult := x } = fetch cfg env) := by
  have h12 : (∀ res ∈ runCalls cfg calls, ∀ out : FetchOut, res = .ok out →
      out.bodyFromNetwork = false) ∧
      (∀ net : Except PyErr NetResp,
        runCalls cfg (calls.map (fun c => (c.1, { c.2 with netResult := net }))) =
          runCalls cfg calls) := by
    revert h
    induction calls generalizing cfg with
    | nil => intro h; exact ⟨by simp [runCalls], fun net => by simp [runCalls]⟩
    | cons c rest ih =>
      intro h
      obtain ⟨ref, env⟩ := c
      have hstate : (fetchCall cfg ref env).1.uselocal = true := by
        rw [fetchCall_uselocal]; exact h
      constructor
      · intro res hres out hout
        simp only [runCalls, List.mem_cons] at hres
        rcases hres with h1 | h1
        · subst h1
          rw [fetchCall_snd] at hout
          have := fetch_bodyFromNetwork _ _ _ hout
          rw [this, hstate]
          rfl
        · exact (ih _ hstate).1 res h1 out hout
      · intro net
        simp only [List.map_cons, runCalls]
        have h2 := fetchCall_net_indep cfg ref env net h
        rw [h2.1, h2.2, (ih _ hstate).2 net]
  exact ⟨h12.1, h12.2,
    fun env w r s x hng => fetch_no_wget_indep cfg env h hng w r s x⟩

/-- Witness for the amended C6: with no image download attempted, one
local-mode cycle is unchanged even when every external transfer (network
GET, wget, resize, display) is replaced by a failure. -/
theorem claim_C6_local_override_witness :
    fetch cfgBoth
        { envWith envLocalJson (.error .otherError) (.error .otherError)
            (.error .otherError) with
          netResult := Except.error PyErr.otherError } =
      fetch cfgBoth envLocalJson :=
  (claim_C6_local_override cfgBoth rfl []).2.2 envLocalJson
    (.error .otherError) (.error .otherError) (.error .otherError)
    (.error .otherError) (by decide)

/-- C8: in the image block, when the original dimensions are known and
portrait (`iwidth < iheight`) the background is placed at the position
shifted by `int((image_resize[0] - pwidth) / 2)` where
`pwidth = int(image_resize[1]^2 / image_resize[0])` (truncated); otherwise
the configured position is used unchanged.  For the 320x240 target the
computed width is 180 and the x-offset is positive and equals
`(320 - 180) // 2 = 70`. -/
theorem claim_C8_portrait_centering :
    (∀ (cfg : Config) (iw ih : Int) (env : Env) (rsz : Nat × Nat)
       (pos : Int × Int),
      cfg.image_resize = some rsz → cfg.image_position = some pos →
      iw < ih → rsz.1 ≠ 0 →
      env.wgetResult = .ok () → env.resizeResult = .ok () →
      env.showImageResult = .ok () →
      imageTry cfg iw ih env =
        .ok [(.file cacheName, some (portraitPos rsz pos))]) ∧
    (∀ (cfg : Config) (iw ih : Int) (env : Env) (rsz : Nat × Nat),
      cfg.image_resize = some rsz → ¬ iw < ih →
      env.wgetResult = .ok () → env.resizeResult = .ok () →
      env.showImageResult = .ok () →
      imageTry cfg iw ih env = .ok [(.file cacheName, cfg.image_position)]) ∧
    (pwidthOf (320, 240) = 240 * 240 / 320 ∧ pwidthOf (320, 240) = 180 ∧
      portraitShift (320, 240) = (((320 - pwidthOf (320, 240)) / 2 : Nat) : Int) ∧
      0 < portraitShift (320, 240)) := by
  refine ⟨?_, ?_, by decide, by decide, by decide, by decide⟩
  · intro cfg iw ih env rsz pos hrsz hpos hlt h0 hw hr hs
    unfold imageTry
    simp only [hw, hrsz, hr, hpos, hs, if_pos hlt, if_neg h0]
  · intro cfg iw ih env rsz hrsz hlt hw hr hs
    unfold imageTry
    simp only [hw, hrsz, hr, hs, if_neg hlt]

/-- Witness for C8: the portrait branch on the concrete instance. -/
theorem claim_C8_portrait_centering_witness :
    imageTry cfgLocalJson 100 300 envLocalJson =
      .ok [(.file cacheName, some (portraitPos (4, 4) (0, 0)))] :=
  claim_C8_portrait_centering.1 cfgLocalJson 100 300 envLocalJson (4, 4) (0, 0)
    rfl rfl (by decide) (by decide) rfl rfl rfl

/-- C9 (counterexample): a configuration supplying BOTH a JSON path and a
regex pattern is accepted at construction without any error — `__init__`
stores both fields — and `fetch` silently resolves the conflict mid-cycle in
favour of the JSON path (the regex, which would have captured `"9"`, is
ignored and the JSON value 5 is returned). -/
theorem claim_C9_counterexample :
    (initExtraction (some (.single [.key ['a']]))
        (some [fun _ => some ['9']])).1 = some [[.key ['a']]] ∧
    (initExtraction (some (.single [.key ['a']]))
        (some [fun _ => some ['9']])).2.isSome = true ∧
    (∃ out, fetch cfgBoth envLocalJson = .ok out ∧ out.ret = .one (.num 5)) ∧
    (∃ out, fetch { cfgBoth with json_path := none } envLocalJson = .ok out ∧
      out.ret = .one (.str ['9'])) := by
  refine ⟨rfl, rfl,
    ⟨⟨.one (.num 5), [], [], false, false⟩, ?_, rfl⟩,
    ⟨⟨.one (.str ['9']), [], [], false, false⟩, ?_, rfl⟩⟩
  · rfl
  · rfl

/-- C9 (amended): the two extraction modes are not mutually exclusive and no
`ConfigError` exists; when both are configured, every `fetch` behaves exactly
as if the regex configuration were absent (JSON-path precedence). -/
theorem claim_C9_json_precedence (cfg : Config) (env : Env) (p : List PathElem)
    (ps : List (List PathElem)) (hp : cfg.json_path = some (p :: ps)) :
    fetch cfg env = fetch { cfg with regexp_path := none } env := by
  have hext : ∀ r j, extractStage { cfg with regexp_path := none } r j =
      extractStage cfg r j := by
    intro r j
    unfold extractStage
    rw [show ({ cfg with regexp_path := none } : Config).json_path =
      cfg.json_path from rfl, hp]
  have h1 : ∀ env2, acquire { cfg with regexp_path := none } env2 =
      acquire cfg env2 := fun _ => rfl
  have h2 : ∀ r, parseStage { cfg with regexp_path := none } r =
      parseStage cfg r := fun _ => rfl
  have h3 : ({ cfg with regexp_path := none } : Config).json_transform =
      cfg.json_transform := rfl
  have h5 : ∀ j, imageUrlStage { cfg with regexp_path := none } j =
      imageUrlStage cfg j := fun _ => rfl
  have h6 : ∀ j, dimStage { cfg with regexp_path := none } j =
      dimStage cfg j := fun _ => rfl
  have h7 : ∀ iu iw ih env2, imageStage { cfg with regexp_path := none } iu iw ih env2 =
      imageStage cfg iu iw ih env2 := fun _ _ _ _ => rfl
  have h8 : ∀ ex, textStage { cfg with regexp_path := none } ex =
      textStage cfg ex := fun _ => rfl
  have h9 : ({ cfg with regexp_path := none } : Config).success_callback =
      cfg.success_callback := rfl
  have h10 : ({ cfg with regexp_path := none } : Config).uselocal =
      cfg.uselocal := rfl
  unfold fetch
  simp only [h1, h2, h3, hext, h5, h6, h7, h8, h9, h10]

/-- Witness for the amended C9 on the both-modes instance. -/
theorem claim_C9_json_precedence_witness :
    fetch cfgBoth envLocalJson =
      fetch { cfgBoth with regexp_path := none } envLocalJson :=
  claim_C9_json_precedence cfgBoth envLocalJson [.key ['a']] [] rfl

/-- Witness for C5: the error characterization applied at the concrete
missing-key example. -/
theorem claim_C5_json_traverse_witness :
    ∃ rest,
      ([PathElem.key ['a'], PathElem.key ['z']] :
          List PathElem) = [PathElem.key ['a']] ++ PathElem.key ['z'] :: rest ∧
      jsonTraverse (.obj [(['a'], .obj [(['b'], .num 5)])]) [.key ['a']] =
        .ok (.obj [(['b'], .num 5)]) ∧
      getElem (.obj [(['b'], .num 5)]) (.key ['z']) = .error .keyError :=
  claim_C5_json_traverse.2.2.1 (.obj [(['a'], .obj [(['b'], .num 5)])])
    [.key ['a'], .key ['z']]
    ⟨[.key ['a']], .obj [(['b'], .num 5)], .key ['z'], .keyError⟩ (by decide)

end PyPortal
